import Mathlib

/-!
Verification of the core of `python_sarlac/sarlac.py`, a command-line
string-transformation tool.  The module's pure logic is shallowly embedded
here:

* Python's `re` library (an external dependency of the source) is modelled by
  a small regular-expression type `Regex` with Python's backtracking priority
  order (greedy repetition, left alternative first), an anchored matcher
  `matchHere` modelling `re.Pattern.match` (match at the very start of the
  string, a prefix suffices), and `reSub` modelling `re.sub` (replace every
  non-overlapping occurrence, scanning left to right) on a replacement taken
  as literal text.  The refinement `reSubT` — and `run_subsT` on top of it —
  adds `re.sub`'s processing of the replacement as a template, whose invalid
  group references and bad escapes raise `re.error` at substitution time; on
  backslash-free replacements it agrees with `reSub` (`reSubT_no_backslash`).
* YAML documents (produced by `yaml.safe_load`, also external) are modelled by
  the inductive `Yaml`; the filesystem by `FS`, a partial map from paths to
  file data.
* Python exceptions that the source can raise are the inductive `PyError`;
  fallible code returns `Except PyError _`.
* The functions `_run_subs`, `_parse_config`, `_get_config_filename`,
  `_generate_cli_adhoc_rules`, `_process_input` and `main` of the source are
  embedded as `run_subs`, `parse_config`, `get_config_filename`,
  `generate_cli_adhoc_rules`, `process_input` and `main`.
-/

set_option autoImplicit false

namespace Sarlac

/-- Regular expressions, covering the fragment of Python `re` exercised by the
verified code paths: the empty pattern, a literal character, `.`, juxtaposition,
alternation `|` and greedy repetition `*`. -/
inductive Regex where
  | eps
  | char (c : Char)
  | dot
  | seq (r1 r2 : Regex)
  | alt (r1 r2 : Regex)
  | star (r : Regex)
  deriving DecidableEq, Repr

/-- Size of a regular expression, used to bound the matcher's fuel. -/
def regexSize : Regex → Nat
  | .eps => 1
  | .char _ => 1
  | .dot => 1
  | .seq r1 r2 => regexSize r1 + regexSize r2 + 1
  | .alt r1 r2 => regexSize r1 + regexSize r2 + 1
  | .star r => regexSize r + 1

/-- Fuelled matcher: all suffixes of `s` remaining after a match of `r` at the
front of `s`, in Python's backtracking priority order (the head is the match
Python's engine commits to: greedy `*`, left alternative first).  A `*`
iteration must consume at least one character, so the listed remainders are
genuine suffixes. -/
def mEnds : Nat → Regex → List Char → List (List Char)
  | 0, _, _ => []
  | f + 1, r, s =>
    match r with
    | .eps => [s]
    | .char c =>
      match s with
      | [] => []
      | x :: xs => if x = c then [xs] else []
    | .dot =>
      match s with
      | [] => []
      | _ :: xs => [xs]
    | .seq r1 r2 => (mEnds f r1 s).flatMap (mEnds f r2)
    | .alt r1 r2 => mEnds f r1 s ++ mEnds f r2 s
    | .star r1 =>
      ((mEnds f r1 s).filter (fun t => t.length < s.length)).flatMap
        (mEnds f (.star r1)) ++ [s]

/-- All remainders of a match of `r` at the front of `s`, priority first.
The fuel `(regexSize r + 1) * (s.length + 1)` is sufficient: every recursive
call of `mEnds` either shrinks the expression or consumes input. -/
def matchEnds (r : Regex) (s : List Char) : List (List Char) :=
  mEnds ((regexSize r + 1) * (s.length + 1)) r s

/-- Model of Python's `re.Pattern.match`: the match is anchored at the first
character of `s`, a prefix match suffices, and the committed match is the
priority head.  `some t` means the match consumed `s` up to the suffix `t`. -/
def matchHere (r : Regex) (s : List Char) : Option (List Char) :=
  (matchEnds r s).head?

/-- Fuelled model of `re.sub`: scan left to right; at each position take the
committed anchored match if any, emit the replacement and continue after the
match (an empty match emits the replacement and then copies one character,
as in Python 3.7+); with no match copy one character.  The fuel
`s.length + 1` always suffices since every step consumes input. -/
def reSubFuel (r : Regex) (rep : List Char) : Nat → List Char → List Char
  | 0, s => s
  | fuel + 1, s =>
    match matchHere r s with
    | some s' =>
      if s'.length < s.length then
        rep ++ reSubFuel r rep fuel s'
      else
        match s with
        | [] => rep
        | c :: rest => rep ++ c :: reSubFuel r rep fuel rest
    | none =>
      match s with
      | [] => []
      | c :: rest => c :: reSubFuel r rep fuel rest

/-- Model of `re.sub(r, rep, s)`: replace every non-overlapping occurrence. -/
def reSub (r : Regex) (rep : List Char) (s : List Char) : List Char :=
  reSubFuel r rep (s.length + 1) s

/-- The regular expression matching a literal string, character by character. -/
def strRe (s : String) : Regex :=
  s.data.foldr (fun c r => Regex.seq (Regex.char c) r) Regex.eps

/-- YAML values as returned by `yaml.safe_load`. -/
inductive Yaml where
  | nullV
  | str (s : String)
  | list (xs : List Yaml)
  | map (kvs : List (String × Yaml))

/-- Python exceptions raised by the code paths of the source module.
`fileNotFoundError` is the spec's `ConfigNotFoundError`; `yamlError`,
`keyError` and `typeError` realise the spec's `ConfigParseError`; `reError`
(from `re.compile`) is the spec's `InvalidPatternError`. -/
inductive PyError where
  | fileNotFoundError
  | yamlError
  | keyError (k : String)
  | typeError
  | reError
  | indexError
  deriving DecidableEq, Repr

/-- One entry of the rule dictionary after `_parse_config` has run
`rule['match'] = re.compile(rule['match'])`: a compiled pattern together with
the raw value (if any) stored under the `replace` key.  The ad-hoc path always
stores a string there; the loader path stores whatever the document held, and
a missing `replace` key only surfaces when the rule is applied. -/
structure ConfigEntry where
  rule_match : Regex
  rule_replace : Option Yaml

/-- Embedding of `_run_subs`: walk the rules in order; for the first rule whose
compiled pattern matches at the start of `instr`, return `re.sub` of that rule
over the whole input (`Except.ok (some _)`); raise `KeyError`/`TypeError` if
the matched rule's `replace` value is missing or not a string; with no rule
matching return Python's `None` (`Except.ok none`). -/
def run_subs (rules : List ConfigEntry) (instr : List Char) :
    Except PyError (Option (List Char)) :=
  match rules with
  | [] => .ok none
  | rule :: rest =>
    if (matchHere rule.rule_match instr).isSome then
      match rule.rule_replace with
      | some (.str rep) => .ok (some (reSub rule.rule_match rep.data instr))
      | some _ => .error .typeError
      | none => .error (.keyError "replace")
    else run_subs rest instr

/-- A rule set is well formed when every rule carries a string under its
`replace` key (the spec's notion of a well-formed RuleSet: both fields
present, the pattern already compiled). -/
def wellFormed (rules : List ConfigEntry) : Prop :=
  ∀ r ∈ rules, ∃ p, r.rule_replace = some (Yaml.str p)

/-- One item of a parsed replacement template: a literal character or a
reference to a numbered group. -/
inductive TItem where
  | lit (c : Char)
  | group (n : Nat)
  deriving DecidableEq, Repr

/-- ASCII letters, whose unknown escapes the template parser rejects. -/
def isAsciiLetter (c : Char) : Bool :=
  ('a' ≤ c && c ≤ 'z') || ('A' ≤ c && c ≤ 'Z')

/-- Prepend an item to the result of parsing the rest of a template. -/
def tcons (i : TItem) :
    Except PyError (List TItem) → Except PyError (List TItem)
  | .error e => .error e
  | .ok t => .ok (i :: t)

/-- Number of capturing groups of a compiled pattern.  The modelled fragment
has no group constructor (`compileRe` rejects `(`), so every compiled pattern
has zero groups, as `Pattern.groups` reports for these patterns in Python. -/
def groupCount : Regex → Nat := fun _ => 0

/-- Model of the parsing of a replacement template inside Python's `re.sub`,
on the fragment used here: `\\`, `\n`, `\t` and `\r` are escapes; `\1`…`\9`
are group references and raise `re.error` when the group does not exist; an
unknown escape of an ASCII letter raises `re.error`, and so — conservatively,
as outside the fragment — do octal escapes (`\0`…) and `\g<...>` references;
an escaped non-letter is kept as both characters; a trailing backslash raises
`re.error`. -/
def parse_template (groups : Nat) : List Char → Except PyError (List TItem)
  | [] => .ok []
  | c :: rest =>
    if c = '\\' then
      match rest with
      | [] => .error .reError
      | e :: rest' =>
        if e = '\\' then tcons (.lit '\\') (parse_template groups rest')
        else if e = 'n' then tcons (.lit '\n') (parse_template groups rest')
        else if e = 't' then tcons (.lit '\t') (parse_template groups rest')
        else if e = 'r' then tcons (.lit '\r') (parse_template groups rest')
        else if e.isDigit && e ≠ '0' then
          if e.toNat - '0'.toNat ≤ groups then
            tcons (.group (e.toNat - '0'.toNat)) (parse_template groups rest')
          else .error .reError
        else if isAsciiLetter e || e = '0' then .error .reError
        else tcons (.lit '\\') (tcons (.lit e) (parse_template groups rest'))
    else tcons (.lit c) (parse_template groups rest)

/-- Expansion of a parsed template at one match: group 0 is the whole matched
text; a template validated against the zero-group patterns of this fragment
contains no higher group reference. -/
def expandTemplate (t : List TItem) (matched : List Char) : List Char :=
  t.flatMap fun item =>
    match item with
    | .lit c => [c]
    | .group 0 => matched
    | .group _ => []

/-- Fuelled scan of `re.sub` with template expansion: exactly `reSubFuel`,
except that each replacement expands the template at the matched text. -/
def reSubExpandFuel (r : Regex) (t : List TItem) : Nat → List Char → List Char
  | 0, s => s
  | fuel + 1, s =>
    match matchHere r s with
    | some s' =>
      if s'.length < s.length then
        expandTemplate t (s.take (s.length - s'.length)) ++
          reSubExpandFuel r t fuel s'
      else
        match s with
        | [] => expandTemplate t []
        | c :: rest => expandTemplate t [] ++ c :: reSubExpandFuel r t fuel rest
    | none =>
      match s with
      | [] => []
      | c :: rest => c :: reSubExpandFuel r t fuel rest

/-- Substitution of a parsed template over the whole input. -/
def reSubExpand (r : Regex) (t : List TItem) (s : List Char) : List Char :=
  reSubExpandFuel r t (s.length + 1) s

/-- Refined model of `re.sub(r, template, s)`: the replacement string is
processed as a template first — raising `re.error` for an invalid group
reference or a bad escape, the error path `reSub` leaves out — and every
match is replaced by the expanded template. -/
def reSubT (r : Regex) (template s : List Char) : Except PyError (List Char) :=
  match parse_template (groupCount r) template with
  | .error e => .error e
  | .ok t => .ok (reSubExpand r t s)

/-- Refined embedding of `_run_subs` with `re.sub`'s replacement-template
processing included: identical to `run_subs`, except that applying the
selected rule raises `re.error` when its replacement is an invalid template
for its pattern. -/
def run_subsT (rules : List ConfigEntry) (instr : List Char) :
    Except PyError (Option (List Char)) :=
  match rules with
  | [] => .ok none
  | rule :: rest =>
    if (matchHere rule.rule_match instr).isSome then
      match rule.rule_replace with
      | some (.str rep) =>
        match reSubT rule.rule_match rep.data instr with
        | .error e => .error e
        | .ok out => .ok (some out)
      | some _ => .error .typeError
      | none => .error (.keyError "replace")
    else run_subsT rest instr

/-- Well-formedness with template validity: every rule has a string
replacement that parses as a valid substitution template for its pattern. -/
def wellFormedT (rules : List ConfigEntry) : Prop :=
  ∀ r ∈ rules, ∃ p t, r.rule_replace = some (Yaml.str p)
    ∧ parse_template (groupCount r.rule_match) p.data = .ok t

/-- Lookup of a key in a YAML mapping, modelling Python `dict` subscripting
(`safe_load` keeps one value per key, so an association list is faithful). -/
def yLookup (kvs : List (String × Yaml)) (k : String) : Option Yaml :=
  match kvs with
  | [] => none
  | (k', v) :: rest => if k' = k then some v else yLookup rest k

/-- Contents of a file as seen through `open` plus `yaml.safe_load`: either a
document that parses to a `Yaml` value, or text that `safe_load` rejects. -/
inductive FileData where
  | yaml (y : Yaml)
  | malformed

/-- The filesystem: a partial map from paths to file data.  `none` means no
regular file exists at the path. -/
structure FS where
  file : String → Option FileData

/-- Model of `Path.is_file`. -/
def is_file (fs : FS) (p : String) : Bool :=
  (fs.file p).isSome

/-- Python truthiness of an optional string (`click` passes `None` for an
option that was not supplied; the empty string is also falsy). -/
def pyTruthy : Option String → Bool
  | none => false
  | some s => !s.isEmpty

/-- Model of `re.compile` on the literal/`.` fragment: each character denotes
itself, `.` denotes any character, and the regex metacharacters outside the
fragment are conservatively rejected with `re.error`.  (Concrete patterns used
below stay inside the fragment, where this agrees with Python: e.g. `"("` is
invalid for Python as well.) -/
def compileRe (p : String) : Except PyError Regex :=
  go p.data
where
  /-- Character-by-character compilation of the pattern. -/
  go : List Char → Except PyError Regex
  | [] => .ok .eps
  | c :: rest =>
    if c = '*' || c = '+' || c = '?' || c = '(' || c = ')' || c = '[' ||
        c = ']' || c = '|' || c = '\\' || c = '^' || c = '$' then
      .error .reError
    else
      match go rest with
      | .error e => .error e
      | .ok r => .ok (.seq (if c = '.' then .dot else .char c) r)

/-- Embedding of `_generate_cli_adhoc_rules`: when both the ad-hoc match
pattern and the ad-hoc replacement are truthy, build the one-rule dictionary
`{'substitutions': [{'match': re.compile(mp), 'replace': rp}]}` (compiling the
pattern, which may raise `re.error`); otherwise return Python's `None`. -/
def generate_cli_adhoc_rules (match_pattern replace_pattern : Option String) :
    Except PyError (Option (List ConfigEntry)) :=
  if pyTruthy match_pattern && pyTruthy replace_pattern then
    match compileRe (match_pattern.getD "") with
    | .error e => .error e
    | .ok r => .ok (some [⟨r, some (Yaml.str (replace_pattern.getD ""))⟩])
  else .ok none

/-- Embedding of `_get_config_filename`: default to the system-wide path,
prefer `$HOME/.sarlac.yaml` when that file exists, and prefer the
`SARLAC_CONFIG` value when it is truthy (no existence check on it). -/
def get_config_filename (env_sarlac_config : Option String) (home : String)
    (fs : FS) : String :=
  let envfile := env_sarlac_config
  let homefile := home ++ "/.sarlac.yaml"
  let globalfile := "/usr/local/etc/sarlac.yaml"
  let configfile := globalfile
  let configfile := if is_file fs homefile then homefile else configfile
  if pyTruthy envfile then envfile.getD "" else configfile

/-- One step of the loader's `for` loop over `config['substitutions']`:
subscript the entry with `'match'` (a `TypeError` unless the entry is a
mapping, a `KeyError` when the key is absent), compile the pattern with
`re.compile` (a `TypeError` unless the value is a string), and keep the raw
value under `'replace'` — the loop never touches that key. -/
def parse_entry (e : Yaml) : Except PyError ConfigEntry :=
  match e with
  | .map kvs =>
    match yLookup kvs "match" with
    | none => .error (.keyError "match")
    | some (.str p) =>
      match compileRe p with
      | .error err => .error err
      | .ok r => .ok ⟨r, yLookup kvs "replace"⟩
    | some _ => .error .typeError
  | _ => .error .typeError

/-- Sequential processing of the entry list, modelling the loader's `for`
loop: the first raised exception aborts the whole call. -/
def mapEntries : List Yaml → Except PyError (List ConfigEntry)
  | [] => .ok []
  | e :: rest =>
    match parse_entry e with
    | .error err => .error err
    | .ok ce =>
      match mapEntries rest with
      | .error err => .error err
      | .ok ces => .ok (ce :: ces)

/-- Embedding of `_parse_config`: `open` the file (`FileNotFoundError` when it
does not exist), `yaml.safe_load` it (`yaml.YAMLError` on malformed text),
subscript the document with `'substitutions'` (a `TypeError` unless it is a
mapping, a `KeyError` when the key is absent), and compile each entry in
order. -/
def parse_config (fs : FS) (configfile : String) :
    Except PyError (List ConfigEntry) :=
  match fs.file configfile with
  | none => .error .fileNotFoundError
  | some .malformed => .error .yamlError
  | some (.yaml y) =>
    match y with
    | .map kvs =>
      match yLookup kvs "substitutions" with
      | none => .error (.keyError "substitutions")
      | some (.list entries) => mapEntries entries
      | some _ => .error .typeError
    | _ => .error .typeError

/-- Model of `click.echo(out)`: the text written to standard output for one
input, newline included.  `click.echo(None)` writes just the newline. -/
def echo (out : Option (List Char)) : String :=
  String.mk (out.getD [] ++ ['\n'])

/-- Python whitespace, as stripped by `str.rstrip()`. -/
def pyIsSpace (c : Char) : Bool :=
  c = ' ' || c = '\t' || c = '\n' || c = '\r' ||
    c = Char.ofNat 11 || c = Char.ofNat 12

/-- Model of `str.rstrip()` with no argument. -/
def pyRstrip (s : List Char) : List Char :=
  (s.reverse.dropWhile pyIsSpace).reverse

/-- The per-input loop of `_process_input`: for each input run `_run_subs` and
`click.echo` the result; an exception aborts the loop.  `strip` selects the
stdin branch, where each line is `rstrip`ped before matching. -/
def echoLoop (rules : List ConfigEntry) (strip : Bool) :
    List String → Except PyError (List String)
  | [] => .ok []
  | instr :: rest =>
    match run_subs rules (if strip then pyRstrip instr.data else instr.data) with
    | .error e => .error e
    | .ok out =>
      match echoLoop rules strip rest with
      | .error e => .error e
      | .ok outs => .ok (echo out :: outs)

/-- Embedding of `_process_input`: subscript `cli_args[-1]` (an `IndexError`
on an empty argument sequence); when the last argument is `"-"` transform the
stdin lines, otherwise transform the arguments themselves. -/
def process_input (rules : List ConfigEntry) (cli_args : List String)
    (stdin : List String) : Except PyError (List String) :=
  match cli_args.getLast? with
  | none => .error .indexError
  | some last =>
    if last = "-" then echoLoop rules true stdin
    else echoLoop rules false cli_args

/-- Embedding of `main`'s control flow after `click` has parsed the command
line: show help and exit when nothing at all was supplied (`Except.ok none`);
otherwise build the ad-hoc rules, resolve the config filename, fall back to
`_parse_config` when there is no ad-hoc rule, and process the inputs.
`Except.ok (some outs)` lists the lines written to standard output. -/
def main (match_pattern replace_pattern : Option String)
    (cli_args : List String) (env_sarlac_config : Option String)
    (home : String) (fs : FS) (stdin : List String) :
    Except PyError (Option (List String)) :=
  if pyTruthy match_pattern = false ∧ pyTruthy replace_pattern = false ∧
      cli_args = [] then
    .ok none
  else
    match generate_cli_adhoc_rules match_pattern replace_pattern with
    | .error e => .error e
    | .ok adhoc =>
      let config := get_config_filename env_sarlac_config home fs
      match
        (match adhoc with
         | some rules => Except.ok rules
         | none => parse_config fs config) with
      | .error e => .error e
      | .ok rules =>
        match process_input rules cli_args stdin with
        | .error e => .error e
        | .ok outs => .ok (some outs)

/-- A filesystem holding a single config file whose one substitution entry has
a `match` key but no `replace` key. -/
def fsMissingReplace : FS :=
  ⟨fun p =>
    if p = "/usr/local/etc/sarlac.yaml" then
      some (FileData.yaml (Yaml.map [("substitutions",
        Yaml.list [Yaml.map [("match", Yaml.str "a")]])]))
    else none⟩

/-! ### Helper lemmas about the substitution engine -/

theorem run_subs_cons_pos {r : ConfigEntry} {rest : List ConfigEntry}
    {s : List Char} {p : String}
    (hm : (matchHere r.rule_match s).isSome = true)
    (hp : r.rule_replace = some (Yaml.str p)) :
    run_subs (r :: rest) s = .ok (some (reSub r.rule_match p.data s)) := by
  simp [run_subs, hm, hp]

theorem run_subs_cons_neg {r : ConfigEntry} {rest : List ConfigEntry}
    {s : List Char} (hm : matchHere r.rule_match s = none) :
    run_subs (r :: rest) s = run_subs rest s := by
  simp [run_subs, hm]

theorem run_subs_no_match {rules : List ConfigEntry} {s : List Char}
    (h : ∀ r ∈ rules, matchHere r.rule_match s = none) :
    run_subs rules s = .ok none := by
  induction rules with
  | nil => rfl
  | cons r rest ih =>
    rw [run_subs_cons_neg (h r (by simp))]
    exact ih fun q hq => h q (by simp [hq])

theorem run_subs_append_first {pre post : List ConfigEntry} {r : ConfigEntry}
    {s : List Char} {p : String}
    (hpre : ∀ q ∈ pre, matchHere q.rule_match s = none)
    (hm : (matchHere r.rule_match s).isSome = true)
    (hp : r.rule_replace = some (Yaml.str p)) :
    run_subs (pre ++ r :: post) s = .ok (some (reSub r.rule_match p.data s)) := by
  induction pre with
  | nil => simpa using run_subs_cons_pos hm hp
  | cons q pre ih =>
    rw [List.cons_append, run_subs_cons_neg (hpre q (by simp))]
    exact ih fun q' hq' => hpre q' (by simp [hq'])

theorem run_subs_some_imp {rules : List ConfigEntry} {s out : List Char}
    (h : run_subs rules s = .ok (some out)) :
    ∃ r ∈ rules, (matchHere r.rule_match s).isSome = true := by
  induction rules with
  | nil => simp [run_subs] at h
  | cons r rest ih =>
    by_cases hm : (matchHere r.rule_match s).isSome = true
    · exact ⟨r, by simp, hm⟩
    · have hnone : matchHere r.rule_match s = none := by
        cases hmm : matchHere r.rule_match s with
        | none => rfl
        | some t => simp [hmm] at hm
      rw [run_subs_cons_neg hnone] at h
      obtain ⟨q, hq, hqm⟩ := ih h
      exact ⟨q, by simp [hq], hqm⟩

theorem run_subsT_cons_pos {r : ConfigEntry} {rest : List ConfigEntry}
    {s : List Char} {p : String} {t : List TItem}
    (hm : (matchHere r.rule_match s).isSome = true)
    (hp : r.rule_replace = some (Yaml.str p))
    (ht : parse_template (groupCount r.rule_match) p.data = .ok t) :
    run_subsT (r :: rest) s = .ok (some (reSubExpand r.rule_match t s)) := by
  simp [run_subsT, hm, hp, reSubT, ht]

theorem run_subsT_cons_neg {r : ConfigEntry} {rest : List ConfigEntry}
    {s : List Char} (hm : matchHere r.rule_match s = none) :
    run_subsT (r :: rest) s = run_subsT rest s := by
  simp [run_subsT, hm]

theorem run_subsT_cases (rules : List ConfigEntry) (s : List Char)
    (h : wellFormedT rules) :
    (run_subsT rules s = .ok none ∧ ∀ r ∈ rules, matchHere r.rule_match s = none)
    ∨ (∃ pre r post p t, rules = pre ++ r :: post
        ∧ (∀ q ∈ pre, matchHere q.rule_match s = none)
        ∧ (matchHere r.rule_match s).isSome = true
        ∧ r.rule_replace = some (Yaml.str p)
        ∧ parse_template (groupCount r.rule_match) p.data = .ok t
        ∧ run_subsT rules s = .ok (some (reSubExpand r.rule_match t s))) := by
  induction rules with
  | nil => exact Or.inl ⟨rfl, by simp⟩
  | cons r rest ih =>
    by_cases hm : (matchHere r.rule_match s).isSome = true
    · obtain ⟨p, t, hp, ht⟩ := h r (by simp)
      exact Or.inr ⟨[], r, rest, p, t, by simp, by simp, hm, hp, ht,
        run_subsT_cons_pos hm hp ht⟩
    · have hnone : matchHere r.rule_match s = none := by
        cases hmm : matchHere r.rule_match s with
        | none => rfl
        | some u => simp [hmm] at hm
      have hrest : wellFormedT rest := fun q hq => h q (by simp [hq])
      rcases ih hrest with ⟨hres, hall⟩ |
        ⟨pre, r', post, p, t, hrw, hpre, hm', hp', ht', hres⟩
      · refine Or.inl ⟨by rw [run_subsT_cons_neg hnone]; exact hres, ?_⟩
        intro q hq
        rcases List.mem_cons.mp hq with h1 | h2
        · subst h1; exact hnone
        · exact hall q h2
      · refine Or.inr ⟨r :: pre, r', post, p, t, by rw [hrw, List.cons_append],
          ?_, hm', hp', ht', ?_⟩
        · intro q hq
          rcases List.mem_cons.mp hq with h1 | h2
          · subst h1; exact hnone
          · exact hpre q h2
        · rw [run_subsT_cons_neg hnone]
          exact hres

/-! ### Agreement of the refined substitution with the literal one on
backslash-free replacements -/

theorem expandTemplate_map_lit (rep matched : List Char) :
    expandTemplate (rep.map TItem.lit) matched = rep := by
  induction rep with
  | nil => rfl
  | cons c cs ih => simp [expandTemplate] at ih ⊢; exact ih

theorem parse_template_no_backslash (groups : Nat) (rep : List Char)
    (h : '\\' ∉ rep) :
    parse_template groups rep = .ok (rep.map TItem.lit) := by
  induction rep with
  | nil => rfl
  | cons c cs ih =>
    simp only [List.mem_cons, not_or] at h
    have hc : ¬c = '\\' := fun hh => h.1 hh.symm
    rw [parse_template.eq_def]
    simp [hc, tcons, ih h.2]

theorem reSubExpandFuel_map_lit (r : Regex) (rep : List Char) (f : Nat)
    (s : List Char) :
    reSubExpandFuel r (rep.map TItem.lit) f s = reSubFuel r rep f s := by
  induction f generalizing s with
  | zero => rfl
  | succ f ih =>
    simp only [reSubExpandFuel, reSubFuel]
    cases hmm : matchHere r s with
    | none => cases s <;> simp [ih]
    | some s' =>
      by_cases hlt : s'.length < s.length
      · simp [hlt, ih, expandTemplate_map_lit]
      · cases s <;> simp [hlt, ih, expandTemplate_map_lit]

theorem reSubT_no_backslash (r : Regex) (rep s : List Char)
    (h : '\\' ∉ rep) :
    reSubT r rep s = .ok (reSub r rep s) := by
  simp [reSubT, parse_template_no_backslash (groupCount r) rep h, reSubExpand,
    reSubExpandFuel_map_lit, reSub]

/-! ### Helper lemmas about the matcher and substitution on a literal
character pattern -/

theorem matchHere_char_nil (c : Char) : matchHere (Regex.char c) [] = none := rfl

theorem matchHere_char_cons (c x : Char) (xs : List Char) :
    matchHere (Regex.char c) (x :: xs) = if x = c then some xs else none := by
  show (if x = c then [xs] else ([] : List (List Char))).head? =
    if x = c then some xs else none
  by_cases hx : x = c <;> simp [hx]

theorem reSub_char_nil (c : Char) (rep : List Char) :
    reSub (Regex.char c) rep [] = [] := rfl

theorem reSub_char_cons (c x : Char) (rep xs : List Char) :
    reSub (Regex.char c) rep (x :: xs) =
      (if x = c then rep else [x]) ++ reSub (Regex.char c) rep xs := by
  have h0 : reSub (Regex.char c) rep (x :: xs) =
      reSubFuel (Regex.char c) rep (xs.length + 1 + 1) (x :: xs) := rfl
  rw [h0]
  by_cases hx : x = c <;>
    simp [reSubFuel, matchHere_char_cons, hx, reSub, Nat.lt_succ_self]

theorem reSub_char_flatMap (c : Char) (rep s : List Char) :
    reSub (Regex.char c) rep s =
      s.flatMap fun x => if x = c then rep else [x] := by
  induction s with
  | nil => rfl
  | cons x xs ih => rw [reSub_char_cons, ih]; simp

/-! ### Claims about the substitution engine -/

/-- Claim C1: for every rule set in which several rules match the input at the
start, `_run_subs` returns the result of applying only the earliest matching
rule; the rules after it (matching or not) are never applied — the result does
not depend on them at all. -/
theorem first_match_wins (pre post : List ConfigEntry) (r : ConfigEntry)
    (p : String) (s : List Char)
    (hpre : ∀ q ∈ pre, matchHere q.rule_match s = none)
    (hm : (matchHere r.rule_match s).isSome = true)
    (hp : r.rule_replace = some (Yaml.str p)) :
    run_subs (pre ++ r :: post) s = .ok (some (reSub r.rule_match p.data s))
    ∧ ∀ post', run_subs (pre ++ r :: post) s = run_subs (pre ++ r :: post') s := by
  refine ⟨run_subs_append_first hpre hm hp, fun post' => ?_⟩
  rw [run_subs_append_first hpre hm hp, run_subs_append_first hpre hm hp]

/-- Witness for `first_match_wins`: with a non-matching first rule and two
rules matching `"aa"`, only the earlier matching rule (replacing by `"c"`) is
applied, never the later one (which would replace by `"d"`). -/
theorem first_match_wins_witness :
    (∀ q ∈ [ConfigEntry.mk (Regex.char 'x') (some (Yaml.str "z"))],
        matchHere q.rule_match "aa".data = none)
    ∧ (matchHere (Regex.char 'a') "aa".data).isSome = true
    ∧ run_subs ([⟨Regex.char 'x', some (Yaml.str "z")⟩] ++
          ConfigEntry.mk (Regex.char 'a') (some (Yaml.str "c")) ::
          [⟨Regex.char 'a', some (Yaml.str "d")⟩]) "aa".data =
        .ok (some (reSub (Regex.char 'a') "c".data "aa".data)) := by
  refine ⟨by decide, by decide, ?_⟩
  exact (first_match_wins [⟨Regex.char 'x', some (Yaml.str "z")⟩]
    [⟨Regex.char 'a', some (Yaml.str "d")⟩]
    ⟨Regex.char 'a', some (Yaml.str "c")⟩ "c" "aa".data
    (by decide) (by decide) rfl).1

/-- Claim C2: a rule is selected by `_run_subs` only when its pattern matches
anchored at the first character of the input (`re.Pattern.match`); a prefix
match suffices (rule `a` fires on `"abc"`), while a pattern such as `foo` that
matches only at a later position of `"xfoo"` does not select the rule even
though a search would find it one character in. -/
theorem anchored_matching (rules : List ConfigEntry) (s out : List Char)
    (h : run_subs rules s = .ok (some out)) :
    (∃ r ∈ rules, (matchHere r.rule_match s).isSome = true)
    ∧ run_subs [⟨strRe "foo", some (Yaml.str "bar")⟩] "xfoo".data = .ok none
    ∧ (matchHere (strRe "foo") ("xfoo".data.drop 1)).isSome = true
    ∧ run_subs [⟨Regex.char 'a', some (Yaml.str "b")⟩] "abc".data =
        .ok (some "bbc".data) :=
  ⟨run_subs_some_imp h, by rfl, by decide, by rfl⟩

/-- Witness for `anchored_matching`, instantiated at a single rule `a → b`
applied to `"abc"`. -/
theorem anchored_matching_witness :
    run_subs [⟨Regex.char 'a', some (Yaml.str "b")⟩] "abc".data =
      .ok (some "bbc".data)
    ∧ ∃ r ∈ [ConfigEntry.mk (Regex.char 'a') (some (Yaml.str "b"))],
        (matchHere r.rule_match "abc".data).isSome = true := by
  refine ⟨by rfl, ?_⟩
  exact (anchored_matching [⟨Regex.char 'a', some (Yaml.str "b")⟩]
    "abc".data "bbc".data (by rfl)).1

/-- Claim C3: a selected rule's substitution is applied to all occurrences of
the pattern in the input, not only the first: the ad-hoc rule
`match="a", replace="b"` rewrites `"aaa"` to `"bbb"`, and in general `re.sub`
with a single-character pattern rewrites every occurrence in the string. -/
theorem sub_all_occurrences :
    generate_cli_adhoc_rules (some "a") (some "b") =
      .ok (some [⟨Regex.seq (Regex.char 'a') Regex.eps, some (Yaml.str "b")⟩])
    ∧ run_subs [⟨Regex.seq (Regex.char 'a') Regex.eps, some (Yaml.str "b")⟩]
        "aaa".data = .ok (some "bbb".data)
    ∧ ∀ (c : Char) (rep s : List Char),
        reSub (Regex.char c) rep s =
          s.flatMap fun x => if x = c then rep else [x] :=
  ⟨rfl, rfl, reSub_char_flatMap⟩

/-- Claim C4: when no rule's pattern matches the start of the input,
`_run_subs` returns Python's `None` (`Except.ok none`): not an exception, not
the empty string, and not the input unchanged. -/
theorem no_match_yields_none (rules : List ConfigEntry) (s : List Char)
    (h : ∀ r ∈ rules, matchHere r.rule_match s = none) :
    run_subs rules s = .ok none
    ∧ run_subs rules s ≠ .ok (some [])
    ∧ run_subs rules s ≠ .ok (some s)
    ∧ ∀ e, run_subs rules s ≠ .error e := by
  have h0 := run_subs_no_match h
  exact ⟨h0, by simp [h0], by simp [h0], fun e => by simp [h0]⟩

/-- Witness for `no_match_yields_none`: the rule `b → x` does not match
`"hello"`, so the engine returns the no-match signal. -/
theorem no_match_yields_none_witness :
    (∀ r ∈ [ConfigEntry.mk (Regex.char 'b') (some (Yaml.str "x"))],
        matchHere r.rule_match "hello".data = none)
    ∧ run_subs [⟨Regex.char 'b', some (Yaml.str "x")⟩] "hello".data = .ok none := by
  refine ⟨by decide, ?_⟩
  exact (no_match_yields_none _ _ (by decide)).1

/-- Counterexample to claim C8 as stated: the one-rule set built from the
successfully compiled pattern `a` and the replacement string `\1` is well
formed in the claim's sense (pattern compiled, replacement present as a
string), yet applying it to `"abc"` throws — `re.sub` processes the
replacement as a template and raises `re.error` for the group reference `\1`,
because the pattern has no capturing groups. -/
theorem template_error_throws :
    compileRe "a" = .ok (Regex.seq (Regex.char 'a') Regex.eps)
    ∧ wellFormed [⟨Regex.seq (Regex.char 'a') Regex.eps, some (Yaml.str "\\1")⟩]
    ∧ run_subsT [⟨Regex.seq (Regex.char 'a') Regex.eps, some (Yaml.str "\\1")⟩]
        "abc".data = .error .reError := by
  refine ⟨rfl, ?_, rfl⟩
  intro r hr
  simp only [List.mem_singleton] at hr
  subst hr
  exact ⟨"\\1", rfl⟩

/-- Claim C8 (amended): for a rule set whose every rule has a compiled
pattern, a string replacement, and a replacement that is a valid substitution
template for that pattern (no invalid group reference, no bad escape),
`_run_subs` never raises: on every input it either returns the substitution
of the first matching rule or the no-match signal. -/
theorem apply_total_templates (rules : List ConfigEntry) (s : List Char)
    (h : wellFormedT rules) :
    ((run_subsT rules s = .ok none ∧ ∀ r ∈ rules, matchHere r.rule_match s = none)
      ∨ (∃ pre r post p t, rules = pre ++ r :: post
          ∧ (∀ q ∈ pre, matchHere q.rule_match s = none)
          ∧ (matchHere r.rule_match s).isSome = true
          ∧ r.rule_replace = some (Yaml.str p)
          ∧ parse_template (groupCount r.rule_match) p.data = .ok t
          ∧ run_subsT rules s = .ok (some (reSubExpand r.rule_match t s))))
    ∧ ∀ e, run_subsT rules s ≠ .error e := by
  have hc := run_subsT_cases rules s h
  refine ⟨hc, fun e => ?_⟩
  rcases hc with ⟨h1, _⟩ | ⟨_, _, _, _, _, _, _, _, _, _, h1⟩ <;> simp [h1]

/-- Witness for `apply_total_templates`: the one-rule set `a → b` has a valid
(backslash-free) template, so applying it to `"aa"` cannot raise. -/
theorem apply_total_templates_witness :
    wellFormedT [⟨Regex.char 'a', some (Yaml.str "b")⟩]
    ∧ ∀ e, run_subsT [⟨Regex.char 'a', some (Yaml.str "b")⟩] "aa".data ≠
        .error e := by
  have hwf : wellFormedT [⟨Regex.char 'a', some (Yaml.str "b")⟩] := by
    intro r hr
    simp only [List.mem_singleton] at hr
    subst hr
    exact ⟨"b", [TItem.lit 'b'], rfl, rfl⟩
  exact ⟨hwf, (apply_total_templates _ _ hwf).2⟩

/-! ### Helper lemma about the config loader loop -/

theorem mapEntries_ok : ∀ {entries : List Yaml} {l : List ConfigEntry},
    mapEntries entries = .ok l →
    l.length = entries.length ∧ ∀ e ∈ entries, ∃ ce, parse_entry e = .ok ce := by
  intro entries
  induction entries with
  | nil =>
    intro l h
    simp only [mapEntries, Except.ok.injEq] at h
    subst h
    simp
  | cons e rest ih =>
    intro l h
    simp only [mapEntries] at h
    cases hpe : parse_entry e with
    | error err => simp [hpe] at h
    | ok ce =>
      rw [hpe] at h
      cases hrest : mapEntries rest with
      | error err => simp [hrest] at h
      | ok ces =>
        rw [hrest] at h
        simp only [Except.ok.injEq] at h
        subst h
        obtain ⟨hlen, hall⟩ := ih hrest
        refine ⟨by simp [hlen], ?_⟩
        intro x hx
        rcases List.mem_cons.mp hx with h1 | h2
        · subst h1; exact ⟨ce, hpe⟩
        · exact hall x h2

/-! ### Claims about config resolution, loading and the CLI flow -/

/-- Claim C5: the ad-hoc path is taken iff both the ad-hoc match pattern and
the ad-hoc replacement are truthy (supplied and non-empty).  Then a single-rule
set is built and `main`'s result does not depend on the filesystem at all —
the configuration file is never read.  Otherwise the ad-hoc builder yields
`None` and, outside the help-only invocation, `main` falls through to loading
the resolved configuration file. -/
theorem adhoc_rule_selection (mp rp : Option String) (cli_args : List String)
    (env : Option String) (home : String) (fs fs' : FS) (stdin : List String) :
    (pyTruthy mp = true → pyTruthy rp = true →
      (∀ r, compileRe (mp.getD "") = .ok r →
        generate_cli_adhoc_rules mp rp =
          .ok (some [⟨r, some (Yaml.str (rp.getD ""))⟩]))
      ∧ main mp rp cli_args env home fs stdin =
          main mp rp cli_args env home fs' stdin)
    ∧ ((pyTruthy mp && pyTruthy rp) = false →
      generate_cli_adhoc_rules mp rp = .ok none
      ∧ (¬(pyTruthy mp = false ∧ pyTruthy rp = false ∧ cli_args = []) →
        main mp rp cli_args env home fs stdin =
          match parse_config fs (get_config_filename env home fs) with
          | .error e => .error e
          | .ok rules =>
            match process_input rules cli_args stdin with
            | .error e => .error e
            | .ok outs => .ok (some outs))) := by
  constructor
  · intro h1 h2
    constructor
    · intro r hr
      simp [generate_cli_adhoc_rules, h1, h2, hr]
    · cases hc : compileRe (mp.getD "") with
      | error e => simp [main, h1, h2, generate_cli_adhoc_rules, hc]
      | ok r => simp [main, h1, h2, generate_cli_adhoc_rules, hc]
  · intro hfalse
    have hgen : generate_cli_adhoc_rules mp rp = .ok none := by
      simp [generate_cli_adhoc_rules, hfalse]
    refine ⟨hgen, fun hnothelp => ?_⟩
    simp [main, hnothelp, hgen]

/-- Witness for `adhoc_rule_selection`: with `-m a -r b` both supplied the
single-rule set is built, and the run's outcome is the same on an empty
filesystem as on one holding a config file. -/
theorem adhoc_rule_selection_witness :
    pyTruthy (some "a") = true ∧ pyTruthy (some "b") = true
    ∧ generate_cli_adhoc_rules (some "a") (some "b") =
        .ok (some [⟨Regex.seq (Regex.char 'a') Regex.eps, some (Yaml.str "b")⟩])
    ∧ main (some "a") (some "b") ["x"] none "/home/u" ⟨fun _ => none⟩ [] =
        main (some "a") (some "b") ["x"] none "/home/u" fsMissingReplace [] := by
  have h := (adhoc_rule_selection (some "a") (some "b") ["x"] none "/home/u"
    ⟨fun _ => none⟩ fsMissingReplace []).1 (by decide) (by decide)
  exact ⟨by decide, by decide, h.1 _ rfl, h.2⟩

/-- Claim C6: `_get_config_filename` always returns a path, preferring a
truthy `SARLAC_CONFIG` value (with no existence check on it), then the
home-directory candidate exactly when a file exists there, then the fixed
system-wide fallback.  In particular a truthy override wins even when both the
home and system files are present. -/
theorem config_precedence (env : Option String) (home : String) (fs : FS) :
    (pyTruthy env = true → get_config_filename env home fs = env.getD "")
    ∧ (pyTruthy env = false → is_file fs (home ++ "/.sarlac.yaml") = true →
        get_config_filename env home fs = home ++ "/.sarlac.yaml")
    ∧ (pyTruthy env = false → is_file fs (home ++ "/.sarlac.yaml") = false →
        get_config_filename env home fs = "/usr/local/etc/sarlac.yaml") :=
  ⟨fun h1 => by simp [get_config_filename, h1],
   fun h1 h2 => by simp [get_config_filename, h1, h2],
   fun h1 h2 => by simp [get_config_filename, h1, h2]⟩

/-- Witness for `config_precedence`: with the override set and both the home
and system files present, the override path is returned. -/
theorem config_precedence_witness :
    pyTruthy (some "/custom.yaml") = true
    ∧ get_config_filename (some "/custom.yaml") "/home/u"
        ⟨fun p =>
          if p = "/home/u/.sarlac.yaml" ∨ p = "/usr/local/etc/sarlac.yaml"
          then some (FileData.yaml Yaml.nullV) else none⟩ = "/custom.yaml" := by
  refine ⟨by decide, ?_⟩
  exact (config_precedence (some "/custom.yaml") "/home/u"
    ⟨fun p =>
      if p = "/home/u/.sarlac.yaml" ∨ p = "/usr/local/etc/sarlac.yaml"
      then some (FileData.yaml Yaml.nullV) else none⟩).1 (by decide)

/-- Counterexample to claim C7 as stated: a config entry lacking the `replace`
key does not fail the loader.  `_parse_config` returns the rule with its
pattern compiled and no replacement — and the missing key only raises later,
when `_run_subs` applies that rule. -/
theorem missing_replace_loads_ok :
    parse_config fsMissingReplace "/usr/local/etc/sarlac.yaml" =
      .ok [⟨Regex.seq (Regex.char 'a') Regex.eps, none⟩]
    ∧ run_subs [⟨Regex.seq (Regex.char 'a') Regex.eps, none⟩] "abc".data =
        .error (.keyError "replace") := ⟨rfl, rfl⟩

/-- Claim C7 (amended): `_parse_config` fails with `FileNotFoundError` on a
nonexistent path, with `yaml.YAMLError` on malformed text, with a `KeyError`
on a document lacking the `substitutions` key, with a `KeyError` on an entry
lacking `match`, and propagates `re.error` from an invalid pattern; a
successful load compiled every entry (no partial rule set).  However an entry
lacking only the `replace` key is accepted at load time, and that failure
surfaces only when the rule is applied. -/
theorem config_loader_failures (fs : FS) (path : String)
    (kvs ekvs : List (String × Yaml)) (entries : List Yaml) (p : String)
    (err : PyError) :
    (fs.file path = none → parse_config fs path = .error .fileNotFoundError)
    ∧ (fs.file path = some .malformed → parse_config fs path = .error .yamlError)
    ∧ (fs.file path = some (.yaml (.map kvs)) →
        yLookup kvs "substitutions" = none →
        parse_config fs path = .error (.keyError "substitutions"))
    ∧ (yLookup ekvs "match" = none →
        parse_entry (.map ekvs) = .error (.keyError "match"))
    ∧ (yLookup ekvs "match" = some (.str p) → compileRe p = .error err →
        parse_entry (.map ekvs) = .error err)
    ∧ (∀ l, mapEntries entries = .ok l →
        l.length = entries.length ∧ ∀ e ∈ entries, ∃ ce, parse_entry e = .ok ce)
    ∧ (∀ (r : ConfigEntry) (rest : List ConfigEntry) (s : List Char),
        (matchHere r.rule_match s).isSome = true → r.rule_replace = none →
        run_subs (r :: rest) s = .error (.keyError "replace")) :=
  ⟨fun h1 => by simp [parse_config, h1],
   fun h1 => by simp [parse_config, h1],
   fun h1 h2 => by simp [parse_config, h1, h2],
   fun h1 => by simp [parse_entry, h1],
   fun h1 h2 => by simp [parse_entry, h1, h2],
   fun _ hl => mapEntries_ok hl,
   fun r rest s hm hr => by simp [run_subs, hm, hr]⟩

/-- Witness for `config_loader_failures`: a missing file, an entry without
`match` and an entry with the invalid pattern `(` each raise the expected
exception. -/
theorem config_loader_failures_witness :
    parse_config ⟨fun _ => none⟩ "/usr/local/etc/sarlac.yaml" =
      .error .fileNotFoundError
    ∧ parse_entry (Yaml.map []) = .error (.keyError "match")
    ∧ parse_entry (Yaml.map [("match", Yaml.str "(")]) = .error .reError := by
  have h := config_loader_failures ⟨fun _ => none⟩ "/usr/local/etc/sarlac.yaml"
    [] [("match", Yaml.str "(")] [] "(" .reError
  refine ⟨h.1 rfl, ?_, h.2.2.2.2.1 rfl rfl⟩
  exact (config_loader_failures ⟨fun _ => none⟩ "x" [] [] [] "" .reError).2.2.2.1 rfl

/-- Counterexample to claim C9 as stated: with an empty rule set (so no rule
can match) and the single input `"hello"`, `_process_input` emits one output
line — the empty line written by `click.echo(None)` — rather than emitting no
line at all. -/
theorem no_match_emits_empty_line :
    process_input [] ["hello"] [] = .ok ["\n"]
    ∧ echo none = "\n" := ⟨rfl, rfl⟩

/-- Claim C9 (amended): for every input on which no rule matches, the per-line
output step passes Python's `None` to `click.echo`, which writes an empty line
(only the line terminator); the line is not suppressed and no sentinel text is
added.  When no rule matches any argument, exactly one empty line is emitted
per argument. -/
theorem no_match_line_is_terminator (rules : List ConfigEntry)
    (cli_args stdin : List String) (last : String)
    (hlast : cli_args.getLast? = some last) (hdash : last ≠ "-")
    (hno : ∀ a ∈ cli_args, ∀ r ∈ rules, matchHere r.rule_match a.data = none) :
    process_input rules cli_args stdin = .ok (cli_args.map fun _ => "\n") := by
  have hloop : ∀ args : List String,
      (∀ a ∈ args, ∀ r ∈ rules, matchHere r.rule_match a.data = none) →
      echoLoop rules false args = .ok (args.map fun _ => "\n") := by
    intro args
    induction args with
    | nil => intro _; rfl
    | cons a rest ih =>
      intro hh
      have h1 : run_subs rules a.data = .ok none :=
        run_subs_no_match (hh a (by simp))
      have h2 := ih fun x hx r hr => hh x (by simp [hx]) r hr
      simp [echoLoop, h1, h2]
      rfl
  simp [process_input, hlast, hdash]
  simpa using hloop cli_args hno

/-- Witness for `no_match_line_is_terminator`: with the rule `b → x` and the
single non-matching argument `"hello"`, one empty line is emitted. -/
theorem no_match_line_is_terminator_witness :
    (["hello"].getLast? = some "hello") ∧ "hello" ≠ "-"
    ∧ process_input [⟨Regex.char 'b', some (Yaml.str "x")⟩] ["hello"] [] =
        .ok ["\n"] := by
  refine ⟨rfl, by decide, ?_⟩
  exact no_match_line_is_terminator [⟨Regex.char 'b', some (Yaml.str "x")⟩]
    ["hello"] [] "hello" rfl (by decide) (by decide)

/-- Claim C10: `_process_input` subscripts `cli_args[-1]` unconditionally, so
an empty positional-argument sequence raises `IndexError` instead of
processing zero inputs as a no-op; in particular `main` invoked with both
ad-hoc options set (a well-formed pattern) and zero positional arguments
raises `IndexError`. -/
theorem empty_args_index_error (rules : List ConfigEntry) (stdin : List String)
    (mp rp env : Option String) (home : String) (fs : FS) (r : Regex)
    (h1 : pyTruthy mp = true) (h2 : pyTruthy rp = true)
    (hc : compileRe (mp.getD "") = .ok r) :
    process_input rules [] stdin = .error .indexError
    ∧ main mp rp [] env home fs stdin = .error .indexError := by
  refine ⟨rfl, ?_⟩
  simp [main, h1, h2, generate_cli_adhoc_rules, hc, process_input]

/-- Witness for `empty_args_index_error`: `-m a -r b` with no positional
arguments raises `IndexError`. -/
theorem empty_args_index_error_witness :
    pyTruthy (some "a") = true ∧ pyTruthy (some "b") = true
    ∧ compileRe "a" = .ok (Regex.seq (Regex.char 'a') Regex.eps)
    ∧ main (some "a") (some "b") [] none "/home/u" ⟨fun _ => none⟩ [] =
        .error .indexError := by
  refine ⟨by decide, by decide, rfl, ?_⟩
  exact (empty_args_index_error [] [] (some "a") (some "b") none "/home/u"
    ⟨fun _ => none⟩ (Regex.seq (Regex.char 'a') Regex.eps)
    (by decide) (by decide) rfl).2

end Sarlac
